import Mathlib

/-
Verification of the KDTreeFeatureMaps feature store (OpenMS,
src/openms/include/OpenMS/ANALYSIS/QUANTITATION/KDTreeFeatureMaps.h).

The repository provides the class header; the method bodies live in a
translation unit that is not part of the sources at hand, so the bodies
(accessors, optimizeTree, queryRegion, getNeighborhood,
applyTransformations, addFeatureConst/addFeatureNonConst, clear) and the
underlying 2D tree are modelled from the specification.  The inline
header code (the addMaps template including its ownership-mode guard,
the default argument of queryRegion, the data members) is translated
directly.

Real-valued coordinates (C++ double) are modelled as rationals; the only
operations the code performs on them are order comparisons, addition,
subtraction and multiplication, all of which are exact here.
-/

namespace KDTreeFeatureMapsSpec

open scoped List

/-- A point stored in the 2D tree: a dense feature handle together with its
(retention time, m/z) key, as in KDTreeFeatureNode. -/
structure Point where
  handle : Nat
  rt : ℚ
  mz : ℚ
deriving DecidableEq

def defaultPoint : Point := ⟨0, 0, 0⟩

/-- Modelled from the spec: the 2D binary space-partitioning tree of
section 4.2 (the KDTree data structure included by the header but not
among the sources).  Each node stores one point and the split axis used
at its depth. -/
inductive KDT where
  | leaf : KDT
  | node (pt : Point) (axis : Nat) (l : KDT) (r : KDT) : KDT
deriving DecidableEq

/-- All points stored in a tree, root first. -/
def toList : KDT → List Point
  | KDT.leaf => []
  | KDT.node p _ l r => p :: (toList l ++ toList r)

/-- Key of a point on a given axis: axis 0 is retention time, any other
axis is m/z (the tree alternates depth % 2). -/
def key (a : Nat) (p : Point) : ℚ := if a = 0 then p.rt else p.mz

/-- Comparison of points by their key on axis a. -/
def keyLe (a : Nat) (x y : Point) : Prop := key a x ≤ key a y

instance (a : Nat) : DecidableRel (keyLe a) :=
  fun x y => inferInstanceAs (Decidable (key a x ≤ key a y))

instance (a : Nat) : IsTotal Point (keyLe a) :=
  ⟨fun x y => le_total (key a x) (key a y)⟩

instance (a : Nat) : IsTrans Point (keyLe a) :=
  ⟨fun _ _ _ hxy hyz => le_trans hxy hyz⟩

/-- Modelled from the spec: balanced construction of the 2D tree
(section 4.2): at each depth the remaining points are stably sorted by
the key of the current axis (depth % 2), the median becomes the node,
and the two halves are built recursively.  The recursion is driven by a
fuel argument (structural, so that it evaluates by reduction); the fuel
pts.length installed by build below never runs out, since each half is
strictly shorter than the sorted whole. -/
def buildF : Nat → List Point → Nat → KDT
  | _, [], _ => KDT.leaf
  | 0, _ :: _, _ => KDT.leaf
  | fuel + 1, p :: ps, depth =>
    KDT.node
      ((List.insertionSort (keyLe (depth % 2)) (p :: ps)).getD ((ps.length + 1) / 2) defaultPoint)
      (depth % 2)
      (buildF fuel ((List.insertionSort (keyLe (depth % 2)) (p :: ps)).take ((ps.length + 1) / 2)) (depth + 1))
      (buildF fuel ((List.insertionSort (keyLe (depth % 2)) (p :: ps)).drop ((ps.length + 1) / 2 + 1)) (depth + 1))

/-- Modelled from the spec: build of the whole 2D tree. -/
def build (pts : List Point) (depth : Nat) : KDT := buildF pts.length pts depth

/-- A closed axis-aligned query rectangle in (rt, mz) space. -/
structure Rect where
  rt_low : ℚ
  rt_high : ℚ
  mz_low : ℚ
  mz_high : ℚ

/-- Whether a point lies in the closed rectangle. -/
def inRectB (R : Rect) (p : Point) : Bool :=
  decide (R.rt_low ≤ p.rt) && decide (p.rt ≤ R.rt_high) &&
    decide (R.mz_low ≤ p.mz) && decide (p.mz ≤ R.mz_high)

/-- Lower bound of the rectangle on a given axis. -/
def lowKey (R : Rect) (a : Nat) : ℚ := if a = 0 then R.rt_low else R.mz_low

/-- Upper bound of the rectangle on a given axis. -/
def highKey (R : Rect) (a : Nat) : ℚ := if a = 0 then R.rt_high else R.mz_high

/-- Modelled from the spec: range search of section 4.2 — collect every
stored point inside the closed rectangle, pruning a subtree when the
node key already separates it from the query window on the split axis. -/
def rangeQuery (R : Rect) : KDT → List Point
  | KDT.leaf => []
  | KDT.node p a l r =>
    (if inRectB R p then [p] else []) ++
      ((if key a p < lowKey R a then [] else rangeQuery R l) ++
        (if highKey R a < key a p then [] else rangeQuery R r))

theorem toList_buildF_perm : ∀ (fuel : Nat) (pts : List Point) (d : Nat),
    pts.length ≤ fuel → List.Perm (toList (buildF fuel pts d)) pts := by
  intro fuel
  induction fuel with
  | zero =>
    intro pts d h
    cases pts with
    | nil => simp [buildF, toList]
    | cons p ps => simp at h
  | succ n ih =>
    intro pts d h
    cases pts with
    | nil => simp [buildF, toList]
    | cons p ps =>
      have hlen : ((ps.length + 1) / 2) < (List.insertionSort (keyLe (d % 2)) (p :: ps)).length := by
        simp only [List.length_insertionSort, List.length_cons]
        omega
      have hsplit : List.insertionSort (keyLe (d % 2)) (p :: ps) =
          (List.insertionSort (keyLe (d % 2)) (p :: ps)).take ((ps.length + 1) / 2) ++
            ((List.insertionSort (keyLe (d % 2)) (p :: ps)).getD ((ps.length + 1) / 2) defaultPoint ::
              (List.insertionSort (keyLe (d % 2)) (p :: ps)).drop ((ps.length + 1) / 2 + 1)) := by
        rw [List.getD_eq_getElem _ _ hlen]
        rw [← List.drop_eq_getElem_cons hlen]
        exact (List.take_append_drop _ _).symm
      have hb1 : ((List.insertionSort (keyLe (d % 2)) (p :: ps)).take ((ps.length + 1) / 2)).length ≤ n := by
        simp only [List.length_take, List.length_insertionSort, List.length_cons]
        simp only [List.length_cons] at h
        omega
      have hb2 : ((List.insertionSort (keyLe (d % 2)) (p :: ps)).drop ((ps.length + 1) / 2 + 1)).length ≤ n := by
        simp only [List.length_drop, List.length_insertionSort, List.length_cons]
        simp only [List.length_cons] at h
        omega
      have h1 := ih ((List.insertionSort (keyLe (d % 2)) (p :: ps)).take ((ps.length + 1) / 2)) (d + 1) hb1
      have h2 := ih ((List.insertionSort (keyLe (d % 2)) (p :: ps)).drop ((ps.length + 1) / 2 + 1)) (d + 1) hb2
      calc toList (buildF (n + 1) (p :: ps) d)
          = (List.insertionSort (keyLe (d % 2)) (p :: ps)).getD ((ps.length + 1) / 2) defaultPoint ::
              (toList (buildF n ((List.insertionSort (keyLe (d % 2)) (p :: ps)).take ((ps.length + 1) / 2)) (d + 1)) ++
               toList (buildF n ((List.insertionSort (keyLe (d % 2)) (p :: ps)).drop ((ps.length + 1) / 2 + 1)) (d + 1))) := rfl
        _ ~ (List.insertionSort (keyLe (d % 2)) (p :: ps)).getD ((ps.length + 1) / 2) defaultPoint ::
              ((List.insertionSort (keyLe (d % 2)) (p :: ps)).take ((ps.length + 1) / 2) ++
               (List.insertionSort (keyLe (d % 2)) (p :: ps)).drop ((ps.length + 1) / 2 + 1)) :=
            (h1.append h2).cons _
        _ ~ (List.insertionSort (keyLe (d % 2)) (p :: ps)).take ((ps.length + 1) / 2) ++
              ((List.insertionSort (keyLe (d % 2)) (p :: ps)).getD ((ps.length + 1) / 2) defaultPoint ::
               (List.insertionSort (keyLe (d % 2)) (p :: ps)).drop ((ps.length + 1) / 2 + 1)) :=
            List.perm_middle.symm
        _ = List.insertionSort (keyLe (d % 2)) (p :: ps) := hsplit.symm
        _ ~ p :: ps := List.perm_insertionSort _ _

theorem toList_build_perm (pts : List Point) (d : Nat) : List.Perm (toList (build pts d)) pts :=
  toList_buildF_perm pts.length pts d le_rfl

/-- Ordering invariant of the 2D tree: at every node, the left subtree
holds only points whose key on the split axis is at most the node key,
and the right subtree only points whose key is at least the node key. -/
inductive Good : KDT → Prop
  | leaf : Good KDT.leaf
  | node (p : Point) (a : Nat) (l r : KDT)
      (hl : ∀ x ∈ toList l, key a x ≤ key a p)
      (hr : ∀ x ∈ toList r, key a p ≤ key a x)
      (gl : Good l) (gr : Good r) : Good (KDT.node p a l r)

theorem inRectB_key_bounds (R : Rect) (p : Point) (a : Nat) (h : inRectB R p = true) :
    lowKey R a ≤ key a p ∧ key a p ≤ highKey R a := by
  simp only [inRectB, Bool.and_eq_true, decide_eq_true_eq] at h
  by_cases ha : a = 0 <;> simp only [key, lowKey, highKey, ha, if_true, if_false] <;> tauto

theorem buildF_good : ∀ (fuel : Nat) (pts : List Point) (d : Nat),
    pts.length ≤ fuel → Good (buildF fuel pts d) := by
  intro fuel
  induction fuel with
  | zero =>
    intro pts d h
    cases pts with
    | nil => exact Good.leaf
    | cons p ps => simp at h
  | succ n ih =>
    intro pts d h
    cases pts with
    | nil => exact Good.leaf
    | cons p ps =>
      have hlen : ((ps.length + 1) / 2) < (List.insertionSort (keyLe (d % 2)) (p :: ps)).length := by
        simp only [List.length_insertionSort, List.length_cons]
        omega
      have hsorted : List.Sorted (keyLe (d % 2)) (List.insertionSort (keyLe (d % 2)) (p :: ps)) :=
        List.sorted_insertionSort _ _
      have hmed : (List.insertionSort (keyLe (d % 2)) (p :: ps)).getD ((ps.length + 1) / 2) defaultPoint ∈
          (List.insertionSort (keyLe (d % 2)) (p :: ps)).drop ((ps.length + 1) / 2) := by
        rw [List.getD_eq_getElem _ _ hlen, List.drop_eq_getElem_cons hlen]
        exact List.mem_cons_self _ _
      have hdropSorted : List.Sorted (keyLe (d % 2))
          ((List.insertionSort (keyLe (d % 2)) (p :: ps)).drop ((ps.length + 1) / 2)) :=
        hsorted.drop
      have hb1 : ((List.insertionSort (keyLe (d % 2)) (p :: ps)).take ((ps.length + 1) / 2)).length ≤ n := by
        simp only [List.length_take, List.length_insertionSort, List.length_cons]
        simp only [List.length_cons] at h
        omega
      have hb2 : ((List.insertionSort (keyLe (d % 2)) (p :: ps)).drop ((ps.length + 1) / 2 + 1)).length ≤ n := by
        simp only [List.length_drop, List.length_insertionSort, List.length_cons]
        simp only [List.length_cons] at h
        omega
      refine Good.node _ _ _ _ ?_ ?_ (ih _ (d + 1) hb1) (ih _ (d + 1) hb2)
      · intro x hx
        have hx2 : x ∈ (List.insertionSort (keyLe (d % 2)) (p :: ps)).take ((ps.length + 1) / 2) :=
          (toList_buildF_perm n _ _ hb1).mem_iff.mp hx
        exact hsorted.rel_of_mem_take_of_mem_drop hx2 hmed
      · intro x hx
        have hx2 : x ∈ (List.insertionSort (keyLe (d % 2)) (p :: ps)).drop ((ps.length + 1) / 2 + 1) :=
          (toList_buildF_perm n _ _ hb2).mem_iff.mp hx
        have hcons : (List.insertionSort (keyLe (d % 2)) (p :: ps)).drop ((ps.length + 1) / 2) =
            (List.insertionSort (keyLe (d % 2)) (p :: ps)).getD ((ps.length + 1) / 2) defaultPoint ::
              (List.insertionSort (keyLe (d % 2)) (p :: ps)).drop ((ps.length + 1) / 2 + 1) := by
          rw [List.getD_eq_getElem _ _ hlen]
          exact List.drop_eq_getElem_cons hlen
        have hds := hdropSorted
        rw [hcons] at hds
        exact List.rel_of_sorted_cons hds x hx2

theorem build_good (pts : List Point) (d : Nat) : Good (build pts d) :=
  buildF_good pts.length pts d le_rfl

theorem rangeQuery_perm (R : Rect) {t : KDT} (hg : Good t) :
    List.Perm (rangeQuery R t) ((toList t).filter (inRectB R)) := by
  induction hg with
  | leaf => simp [rangeQuery, toList]
  | node p a l r hl hr gl gr ihl ihr =>
    have Hl : List.Perm (if key a p < lowKey R a then [] else rangeQuery R l)
        ((toList l).filter (inRectB R)) := by
      by_cases hprune : key a p < lowKey R a
      · rw [if_pos hprune]
        have : (toList l).filter (inRectB R) = [] := by
          rw [List.filter_eq_nil_iff]
          intro x hx hinx
          have hb := (inRectB_key_bounds R x a hinx).1
          have := hl x hx
          exact absurd (lt_of_le_of_lt (hb.trans this) hprune) (lt_irrefl _)
        rw [this]
      · rw [if_neg hprune]
        exact ihl
    have Hr : List.Perm (if highKey R a < key a p then [] else rangeQuery R r)
        ((toList r).filter (inRectB R)) := by
      by_cases hprune : highKey R a < key a p
      · rw [if_pos hprune]
        have : (toList r).filter (inRectB R) = [] := by
          rw [List.filter_eq_nil_iff]
          intro x hx hinx
          have hb := (inRectB_key_bounds R x a hinx).2
          have := hr x hx
          exact absurd (lt_of_lt_of_le hprune (this.trans hb)) (lt_irrefl _)
        rw [this]
      · rw [if_neg hprune]
        exact ihr
    show List.Perm ((if inRectB R p then [p] else []) ++ _) ((p :: (toList l ++ toList r)).filter (inRectB R))
    rw [List.filter_cons, List.filter_append]
    by_cases hp : inRectB R p = true
    · rw [if_pos hp, if_pos hp]
      exact (Hl.append Hr).cons p
    · rw [if_neg hp, if_neg hp]
      simpa using Hl.append Hr

/-- Membership form of range-query correctness on any tree satisfying
the ordering invariant. -/
theorem mem_rangeQuery (R : Rect) {t : KDT} (hg : Good t) (x : Point) :
    x ∈ rangeQuery R t ↔ x ∈ toList t ∧ inRectB R x = true := by
  rw [(rangeQuery_perm R hg).mem_iff, List.mem_filter]

/-- A rectangle that is empty on some axis yields an empty range query
on every tree (no ordering invariant needed). -/
theorem rangeQuery_empty_of_malformed (R : Rect)
    (h : R.rt_high < R.rt_low ∨ R.mz_high < R.mz_low) :
    ∀ t : KDT, rangeQuery R t = [] := by
  intro t
  induction t with
  | leaf => rfl
  | node p a l r ihl ihr =>
    have hp : ¬ (inRectB R p = true) := by
      intro hin
      simp only [inRectB, Bool.and_eq_true, decide_eq_true_eq] at hin
      obtain ⟨⟨⟨h1, h2⟩, h3⟩, h4⟩ := hin
      rcases h with h | h
      · exact absurd (le_trans h1 h2) (not_le.mpr h)
      · exact absurd (le_trans h3 h4) (not_le.mpr h)
    show (if inRectB R p then [p] else []) ++
        ((if key a p < lowKey R a then [] else rangeQuery R l) ++
          (if highKey R a < key a p then [] else rangeQuery R r)) = []
    rw [if_neg hp, ihl, ihr, ite_self, ite_self]
    rfl

/-- Type of feature data, from the header: non-const pointers or the
default (const) mode. -/
inductive FeatureDataType where
  | FEATURE_DATA_NON_CONST : FeatureDataType
  | FEATURE_DATA_DEFAULT : FeatureDataType
deriving DecidableEq

/-- The externally owned feature object, reduced to the attributes the
store reads from it: position (rt, mz), intensity and charge. -/
structure BaseFeature where
  rt : ℚ
  mz : ℚ
  intensity : ℚ
  charge : ℤ
deriving DecidableEq

def defaultFeature : BaseFeature := ⟨0, 0, 0, 0⟩

/-- Usage errors (the Exception classes thrown by the class). -/
inductive Err where
  | usageError : Err
deriving DecidableEq

/-- The KDTreeFeatureMaps state: the data members of the header.
Pointers to externally owned features are modelled by the feature
values themselves (the store never mutates them). -/
structure Store where
  features_ : List BaseFeature
  features_mutable_ : List BaseFeature
  map_index_ : List Nat
  rt_ : List ℚ
  num_maps_ : Nat
  kd_tree_ : KDT
  feature_data_type_ : FeatureDataType
deriving DecidableEq

/-- std::numeric_limits of Size::max(), the default for the excluded map
index of queryRegion (from the header). -/
def sizeMax : Nat := 2 ^ 64 - 1

/-- Modelled from the spec: number of features stored. -/
def Store.size (s : Store) : Nat := s.features_.length

/-- Modelled from the spec: (potentially transformed) retention time of
feature i. -/
def Store.rt (s : Store) (i : Nat) : ℚ := s.rt_.getD i 0

/-- Modelled from the spec: m/z of feature i, read from the referenced
feature object. -/
def Store.mz (s : Store) (i : Nat) : ℚ := (s.features_.getD i defaultFeature).mz

/-- Modelled from the spec: intensity of feature i, read from the
referenced feature object. -/
def Store.intensity (s : Store) (i : Nat) : ℚ := (s.features_.getD i defaultFeature).intensity

/-- Modelled from the spec: charge of feature i, read from the
referenced feature object. -/
def Store.charge (s : Store) (i : Nat) : ℤ := (s.features_.getD i defaultFeature).charge

/-- Modelled from the spec: map index of feature i. -/
def Store.mapIndex (s : Store) (i : Nat) : Nat := s.map_index_.getD i 0

/-- Modelled from the spec: number of maps. -/
def Store.numMaps (s : Store) : Nat := s.num_maps_

/-- Modelled from the spec: number of points in the tree. -/
def Store.treeSize (s : Store) : Nat := (toList s.kd_tree_).length

/-- The handle/key points the tree is built over. -/
def Store.points (s : Store) : List Point :=
  (List.range s.size).map (fun i => Point.mk i (s.rt i) (s.mz i))

/-- Modelled from the spec: optimizeTree rebuilds the 2D tree from
scratch over all stored handles and their current (rt, mz) keys. -/
def Store.optimizeTree (s : Store) : Store := { s with kd_tree_ := build s.points 0 }

/-- The index is up to date: the tree is the one built from the current
tables (holds after optimizeTree, i.e. after every bulk load and after
any rebuild following a transform). -/
def Store.synced (s : Store) : Prop := s.kd_tree_ = build s.points 0

/-- Modelled from the spec: clear empties all tables and the index. -/
def Store.clear (s : Store) : Store :=
  { s with features_ := [], features_mutable_ := [], map_index_ := [], rt_ := [],
           kd_tree_ := KDT.leaf }

/-- Modelled from the spec: addFeature (const variant) appends the
position/intensity/charge snapshot and the map index; it fails with a
usage error, before storing anything, if the store's ownership mode
does not match the call variant. -/
def Store.addFeatureConst (s : Store) (mt_map_index : Nat) (f : BaseFeature) : Except Err Store :=
  if s.feature_data_type_ = FeatureDataType.FEATURE_DATA_NON_CONST then
    Except.error Err.usageError
  else
    Except.ok { s with features_ := s.features_ ++ [f],
                       map_index_ := s.map_index_ ++ [mt_map_index],
                       rt_ := s.rt_ ++ [f.rt] }

/-- Modelled from the spec: addFeature (non-const pointer variant)
appends to both feature tables; it fails with a usage error, before
storing anything, if the store's ownership mode is not the non-const
mode. -/
def Store.addFeatureNonConst (s : Store) (mt_map_index : Nat) (f : BaseFeature) : Except Err Store :=
  if s.feature_data_type_ = FeatureDataType.FEATURE_DATA_DEFAULT then
    Except.error Err.usageError
  else
    Except.ok { s with features_ := s.features_ ++ [f],
                       features_mutable_ := s.features_mutable_ ++ [f],
                       map_index_ := s.map_index_ ++ [mt_map_index],
                       rt_ := s.rt_ ++ [f.rt] }

/-- Inner loop of addMaps: add every feature of one map with that map's
index (header: iterate the map, addFeatureConst(i, feature)). -/
def addAllConst (s : Store) (i : Nat) (m : List BaseFeature) : Except Err Store :=
  match m with
  | [] => Except.ok s
  | f :: fs => (s.addFeatureConst i f).bind (fun t => addAllConst t i fs)

/-- Outer loop of addMaps: maps are processed in order, map k of the
call receiving index i + k. -/
def addMapsLoop (s : Store) (i : Nat) (maps : List (List BaseFeature)) : Except Err Store :=
  match maps with
  | [] => Except.ok s
  | m :: rest => (addAllConst s i m).bind (fun t => addMapsLoop t (i + 1) rest)

/-- addMaps, translated from the header: reject non-const stores with a
usage error, overwrite num_maps_ with maps.size(), add every feature of
map i with index i via addFeatureConst, then balance the tree once. -/
def Store.addMaps (s : Store) (maps : List (List BaseFeature)) : Except Err Store :=
  if s.feature_data_type_ = FeatureDataType.FEATURE_DATA_NON_CONST then
    Except.error Err.usageError
  else
    (addMapsLoop { s with num_maps_ := maps.length } 0 maps).map Store.optimizeTree

/-- The map-index column appended by one addMaps call whose first map
gets index i: map k contributes its length many copies of i + k. -/
def tagsFrom (i : Nat) (maps : List (List BaseFeature)) : List Nat :=
  match maps with
  | [] => []
  | m :: rest => List.replicate m.length i ++ tagsFrom (i + 1) rest

/-- Modelled from the spec: queryRegion returns the handles of all
features inside the closed rectangle, excluding those whose map index
equals the supplied excluded index (the header defaults it to
Size::max(), i.e. no realizable map is excluded). -/
def Store.queryRegion (s : Store) (rt_low rt_high mz_low mz_high : ℚ)
    (ignored_map_index : Nat) : List Nat :=
  ((rangeQuery (Rect.mk rt_low rt_high mz_low mz_high) s.kd_tree_).filter
    (fun p => decide (s.mapIndex p.handle ≠ ignored_map_index))).map Point.handle

/-- Modelled from the spec: the m/z half-width of the neighborhood
window: mz0 * mz_tol * 1e-6 in ppm mode, mz_tol itself in absolute
mode. -/
def mzHalfWidth (mz0 mz_tol : ℚ) (mz_ppm : Bool) : ℚ :=
  if mz_ppm then mz0 * mz_tol * (1 / 1000000) else mz_tol

/-- Modelled from the spec: the fold-change test of getNeighborhood —
the absolute log2 ratio of candidate intensity ih to query intensity iq
is at most c.  For positive intensities and c = num/den ≥ 0 this is
encoded exactly over the rationals as
(ih/iq)^den ≤ 2^num and 2^(-num) ≤ (ih/iq)^den; a comparison in which
either intensity is not positive is undefined and fails the test. -/
def fcWithin (c iq ih : ℚ) : Bool :=
  decide (0 < iq) && decide (0 < ih) &&
    decide ((ih / iq) ^ c.den ≤ 2 ^ c.num.toNat) &&
    decide (1 ≤ (ih / iq) ^ c.den * 2 ^ c.num.toNat)

/-- Modelled from the spec: the fold-change filter is applied only when
the bound is nonnegative; a negative bound disables it. -/
def fcPass (c iq ih : ℚ) : Bool :=
  decide (c < 0) || fcWithin c iq ih

/-- Modelled from the spec: getNeighborhood — resolve the query handle
to (rt0, mz0), range-search the window
[rt0 - rt_tol, rt0 + rt_tol] x [mz0 - w, mz0 + w] with w the m/z
half-width, then drop the query feature itself, candidates from the
same map (unless included), and candidates failing the fold-change
filter. -/
def Store.getNeighborhood (s : Store) (index : Nat) (rt_tol mz_tol : ℚ) (mz_ppm : Bool)
    (include_features_from_same_map : Bool) (max_pairwise_log_fc : ℚ) : List Nat :=
  ((rangeQuery
      (Rect.mk (s.rt index - rt_tol) (s.rt index + rt_tol)
        (s.mz index - mzHalfWidth (s.mz index) mz_tol mz_ppm)
        (s.mz index + mzHalfWidth (s.mz index) mz_tol mz_ppm)) s.kd_tree_).filter
    (fun p => decide (p.handle ≠ index) &&
      (include_features_from_same_map || decide (s.mapIndex p.handle ≠ s.mapIndex index)) &&
      fcPass max_pairwise_log_fc (s.intensity index) (s.intensity p.handle))).map Point.handle

/-- getNeighborhood with the fold-change filter removed; used to state
that a negative bound disables that filter. -/
def Store.neighborhoodNoFC (s : Store) (index : Nat) (rt_tol mz_tol : ℚ) (mz_ppm : Bool)
    (include_features_from_same_map : Bool) : List Nat :=
  ((rangeQuery
      (Rect.mk (s.rt index - rt_tol) (s.rt index + rt_tol)
        (s.mz index - mzHalfWidth (s.mz index) mz_tol mz_ppm)
        (s.mz index + mzHalfWidth (s.mz index) mz_tol mz_ppm)) s.kd_tree_).filter
    (fun p => decide (p.handle ≠ index) &&
      (include_features_from_same_map || decide (s.mapIndex p.handle ≠ s.mapIndex index)))).map
    Point.handle

/-- Modelled from the spec: applyTransformations replaces the retention
time of every stored feature i by the per-map transform
trafos[mapIndex(i)] applied to the old rt(i); a transform-list length
different from numMaps() is a usage error that mutates nothing.  The
tree is left as is (stale until the next optimizeTree). -/
def transformedRt (s : Store) (trafos : List (ℚ → ℚ)) : List ℚ :=
  (List.range s.rt_.length).map
    (fun i => (trafos.getD (s.map_index_.getD i 0) id) (s.rt_.getD i 0))

/-- Modelled from the spec: see the comment on transformedRt above;
this is the whole applyTransformations call. -/
def Store.applyTransformations (s : Store) (trafos : List (ℚ → ℚ)) : Except Err Store :=
  if trafos.length ≠ s.num_maps_ then
    Except.error Err.usageError
  else
    Except.ok { s with rt_ := transformedRt s trafos }

/-- The default-constructed store: empty, const (default) feature data
type. -/
def emptyStore : Store :=
  Store.mk [] [] [] [] 0 KDT.leaf FeatureDataType.FEATURE_DATA_DEFAULT

/-- A non-const (mutable-reference) empty store, as produced by the
non-const constructor before its addMapsNonConst call. -/
def emptyStoreNonConst : Store :=
  Store.mk [] [] [] [] 0 KDT.leaf FeatureDataType.FEATURE_DATA_NON_CONST

/-- Unwrap an Except result, with a fallback for the error case. -/
def okOr (e : Except Err Store) (d : Store) : Store :=
  match e with
  | Except.ok s => s
  | Except.error _ => d

theorem mem_points {s : Store} {x : Point} :
    x ∈ s.points ↔ ∃ i, i < s.size ∧ x = Point.mk i (s.rt i) (s.mz i) := by
  simp only [Store.points, List.mem_map, List.mem_range]
  constructor
  · rintro ⟨i, hi, rfl⟩
    exact ⟨i, hi, rfl⟩
  · rintro ⟨i, hi, rfl⟩
    exact ⟨i, hi, rfl⟩

theorem optimizeTree_synced (s : Store) : s.optimizeTree.synced := rfl

theorem optimizeTree_treeSize (s : Store) : s.optimizeTree.treeSize = s.size := by
  show (toList (build s.points 0)).length = s.size
  rw [(toList_build_perm s.points 0).length_eq]
  simp [Store.points]

/-- Membership characterization of queryRegion over an up-to-date
index: exactly the in-range handles whose map index differs from the
excluded one. -/
theorem mem_queryRegion {s : Store} (hs : s.synced) (rl rh ml mh : ℚ) (ex i : Nat) :
    i ∈ s.queryRegion rl rh ml mh ex ↔
      i < s.size ∧ (rl ≤ s.rt i ∧ s.rt i ≤ rh ∧ ml ≤ s.mz i ∧ s.mz i ≤ mh) ∧
        s.mapIndex i ≠ ex := by
  unfold Store.queryRegion
  rw [hs]
  constructor
  · intro hmem
    obtain ⟨p, hp, hph⟩ := List.mem_map.mp hmem
    obtain ⟨hpQ, hpg⟩ := List.mem_filter.mp hp
    rw [mem_rangeQuery _ (build_good _ _)] at hpQ
    obtain ⟨hpt, hin⟩ := hpQ
    have hpts : p ∈ s.points := (toList_build_perm _ _).mem_iff.mp hpt
    obtain ⟨j, hj, rfl⟩ := mem_points.mp hpts
    simp only [inRectB, Bool.and_eq_true, decide_eq_true_eq] at hin
    simp only [decide_eq_true_eq] at hpg
    cases hph
    exact ⟨hj, ⟨hin.1.1.1, hin.1.1.2, hin.1.2, hin.2⟩, hpg⟩
  · rintro ⟨hi, ⟨h1, h2, h3, h4⟩, hex⟩
    refine List.mem_map.mpr ⟨Point.mk i (s.rt i) (s.mz i), List.mem_filter.mpr ⟨?_, ?_⟩, rfl⟩
    · rw [mem_rangeQuery _ (build_good _ _)]
      refine ⟨(toList_build_perm _ _).mem_iff.mpr (mem_points.mpr ⟨i, hi, rfl⟩), ?_⟩
      simp only [inRectB, Bool.and_eq_true, decide_eq_true_eq]
      exact ⟨⟨⟨h1, h2⟩, h3⟩, h4⟩
    · simpa using hex

/-- On an up-to-date index, a region query whose window covers every
stored position and whose excluded index matches no stored feature is a
permutation of the full handle range. -/
theorem queryRegion_perm_range {s : Store} (hs : s.synced) (rl rh ml mh : ℚ) (ex : Nat)
    (hcover : ∀ i < s.size, rl ≤ s.rt i ∧ s.rt i ≤ rh ∧ ml ≤ s.mz i ∧ s.mz i ≤ mh)
    (hex : ∀ i < s.size, s.mapIndex i ≠ ex) :
    List.Perm (s.queryRegion rl rh ml mh ex) (List.range s.size) := by
  unfold Store.queryRegion
  rw [hs]
  have hq : List.Perm (rangeQuery (Rect.mk rl rh ml mh) (build s.points 0))
      (s.points.filter (inRectB (Rect.mk rl rh ml mh))) :=
    (rangeQuery_perm _ (build_good _ _)).trans
      ((toList_build_perm s.points 0).filter _)
  have hfull : s.points.filter (inRectB (Rect.mk rl rh ml mh)) = s.points := by
    rw [List.filter_eq_self]
    intro x hx
    obtain ⟨i, hi, rfl⟩ := mem_points.mp hx
    simp only [inRectB, Bool.and_eq_true, decide_eq_true_eq]
    obtain ⟨h1, h2, h3, h4⟩ := hcover i hi
    exact ⟨⟨⟨h1, h2⟩, h3⟩, h4⟩
  rw [hfull] at hq
  have hg : s.points.filter (fun p => decide (s.mapIndex p.handle ≠ ex)) = s.points := by
    rw [List.filter_eq_self]
    intro x hx
    obtain ⟨i, hi, rfl⟩ := mem_points.mp hx
    simpa using hex i hi
  have hfil := hq.filter (fun p => decide (s.mapIndex p.handle ≠ ex))
  rw [hg] at hfil
  have hmap := hfil.map Point.handle
  have : s.points.map Point.handle = List.range s.size := by
    simp only [Store.points, List.map_map, Function.comp_def]
    exact List.map_id _
  rw [this] at hmap
  exact hmap

/-- Membership characterization of getNeighborhood over an up-to-date
index. -/
theorem mem_getNeighborhood {s : Store} (hs : s.synced) (q : Nat) (rt_tol mz_tol : ℚ)
    (ppm inc : Bool) (c : ℚ) (h : Nat) :
    h ∈ s.getNeighborhood q rt_tol mz_tol ppm inc c ↔
      h < s.size ∧ h ≠ q ∧
        s.rt q - rt_tol ≤ s.rt h ∧ s.rt h ≤ s.rt q + rt_tol ∧
        s.mz q - mzHalfWidth (s.mz q) mz_tol ppm ≤ s.mz h ∧
        s.mz h ≤ s.mz q + mzHalfWidth (s.mz q) mz_tol ppm ∧
        (inc = true ∨ s.mapIndex h ≠ s.mapIndex q) ∧
        fcPass c (s.intensity q) (s.intensity h) = true := by
  unfold Store.getNeighborhood
  rw [hs]
  constructor
  · intro hmem
    obtain ⟨p, hp, hph⟩ := List.mem_map.mp hmem
    obtain ⟨hpQ, hpg⟩ := List.mem_filter.mp hp
    rw [mem_rangeQuery _ (build_good _ _)] at hpQ
    obtain ⟨hpt, hin⟩ := hpQ
    have hpts : p ∈ s.points := (toList_build_perm _ _).mem_iff.mp hpt
    obtain ⟨j, hj, rfl⟩ := mem_points.mp hpts
    simp only [inRectB, Bool.and_eq_true, decide_eq_true_eq] at hin
    simp only [Bool.and_eq_true, Bool.or_eq_true, decide_eq_true_eq] at hpg
    cases hph
    exact ⟨hj, hpg.1.1, hin.1.1.1, hin.1.1.2, hin.1.2, hin.2, hpg.1.2, hpg.2⟩
  · rintro ⟨hi, hne, h1, h2, h3, h4, hmapc, hfc⟩
    refine List.mem_map.mpr ⟨Point.mk h (s.rt h) (s.mz h), List.mem_filter.mpr ⟨?_, ?_⟩, rfl⟩
    · rw [mem_rangeQuery _ (build_good _ _)]
      refine ⟨(toList_build_perm _ _).mem_iff.mpr (mem_points.mpr ⟨h, hi, rfl⟩), ?_⟩
      simp only [inRectB, Bool.and_eq_true, decide_eq_true_eq]
      exact ⟨⟨⟨h1, h2⟩, h3⟩, h4⟩
    · simp only [Bool.and_eq_true, Bool.or_eq_true, decide_eq_true_eq]
      exact ⟨⟨hne, hmapc⟩, hfc⟩

/-- The explicit candidate filters of getNeighborhood, read back from a
membership, on any store (the index need not be up to date). -/
theorem mem_getNeighborhood_filters {s : Store} {q h : Nat} {rt_tol mz_tol : ℚ}
    {ppm inc : Bool} {c : ℚ}
    (hmem : h ∈ s.getNeighborhood q rt_tol mz_tol ppm inc c) :
    h ≠ q ∧ (inc = false → s.mapIndex h ≠ s.mapIndex q) ∧
      fcPass c (s.intensity q) (s.intensity h) = true := by
  unfold Store.getNeighborhood at hmem
  obtain ⟨p, hp, hph⟩ := List.mem_map.mp hmem
  obtain ⟨_, hflt⟩ := List.mem_filter.mp hp
  simp only [Bool.and_eq_true, Bool.or_eq_true, decide_eq_true_eq] at hflt
  cases hph
  refine ⟨hflt.1.1, ?_, hflt.2⟩
  intro hinc
  rcases hflt.1.2 with hT | hne
  · rw [hinc] at hT
    cases hT
  · exact hne

/-- A negative fold-change bound disables the fold-change filter
entirely. -/
theorem getNeighborhood_neg_fc {s : Store} (q : Nat) (rt_tol mz_tol : ℚ) (ppm inc : Bool)
    {c : ℚ} (hc : c < 0) :
    s.getNeighborhood q rt_tol mz_tol ppm inc c = s.neighborhoodNoFC q rt_tol mz_tol ppm inc := by
  unfold Store.getNeighborhood Store.neighborhoodNoFC
  congr 1
  apply List.filter_congr
  intro p _
  have hfc : fcPass c (s.intensity q) (s.intensity p.handle) = true := by
    unfold fcPass
    simp [hc]
  rw [hfc, Bool.and_true]

theorem addAllConst_ok {s : Store}
    (hmode : s.feature_data_type_ ≠ FeatureDataType.FEATURE_DATA_NON_CONST)
    (i : Nat) (m : List BaseFeature) :
    addAllConst s i m = Except.ok
      { s with features_ := s.features_ ++ m,
               map_index_ := s.map_index_ ++ List.replicate m.length i,
               rt_ := s.rt_ ++ m.map BaseFeature.rt } := by
  induction m generalizing s with
  | nil => simp [addAllConst]
  | cons f fs ih =>
    show (s.addFeatureConst i f).bind (fun t => addAllConst t i fs) = _
    unfold Store.addFeatureConst
    rw [if_neg hmode]
    show addAllConst { s with features_ := s.features_ ++ [f],
                              map_index_ := s.map_index_ ++ [i],
                              rt_ := s.rt_ ++ [f.rt] } i fs = _
    rw [@ih { s with features_ := s.features_ ++ [f],
                     map_index_ := s.map_index_ ++ [i],
                     rt_ := s.rt_ ++ [f.rt] } hmode]
    simp [List.append_assoc, List.replicate_succ]

theorem addMapsLoop_ok {s : Store}
    (hmode : s.feature_data_type_ ≠ FeatureDataType.FEATURE_DATA_NON_CONST)
    (i : Nat) (maps : List (List BaseFeature)) :
    addMapsLoop s i maps = Except.ok
      { s with features_ := s.features_ ++ maps.flatten,
               map_index_ := s.map_index_ ++ tagsFrom i maps,
               rt_ := s.rt_ ++ (maps.flatten).map BaseFeature.rt } := by
  induction maps generalizing s i with
  | nil => simp [addMapsLoop, tagsFrom]
  | cons m rest ih =>
    show (addAllConst s i m).bind (fun t => addMapsLoop t (i + 1) rest) = _
    rw [addAllConst_ok hmode]
    show addMapsLoop { s with features_ := s.features_ ++ m,
                              map_index_ := s.map_index_ ++ List.replicate m.length i,
                              rt_ := s.rt_ ++ m.map BaseFeature.rt } (i + 1) rest = _
    rw [@ih { s with features_ := s.features_ ++ m,
                     map_index_ := s.map_index_ ++ List.replicate m.length i,
                     rt_ := s.rt_ ++ m.map BaseFeature.rt } hmode (i + 1)]
    simp [tagsFrom, List.append_assoc]

/-- Every map index written by one addMaps call whose first map gets
index i lies in [i, i + number of maps of the call). -/
theorem tagsFrom_mem_bounds {i : Nat} {maps : List (List BaseFeature)} {x : Nat}
    (hx : x ∈ tagsFrom i maps) : i ≤ x ∧ x < i + maps.length := by
  induction maps generalizing i with
  | nil => cases hx
  | cons m rest ih =>
    rw [tagsFrom] at hx
    rcases List.mem_append.mp hx with hx | hx
    · have := List.eq_of_mem_replicate hx
      subst this
      simp
    · obtain ⟨h1, h2⟩ := ih hx
      constructor
      · omega
      · simp only [List.length_cons]
        omega

/-- The full effect of a successful addMaps call, from the header code:
num_maps_ is overwritten with the number of maps of the call, the
features of map k are appended with map index k, and the tree is
rebuilt once at the end. -/
theorem addMaps_ok {s : Store}
    (hmode : s.feature_data_type_ = FeatureDataType.FEATURE_DATA_DEFAULT)
    (maps : List (List BaseFeature)) :
    s.addMaps maps = Except.ok (Store.optimizeTree
      { s with features_ := s.features_ ++ maps.flatten,
               map_index_ := s.map_index_ ++ tagsFrom 0 maps,
               rt_ := s.rt_ ++ (maps.flatten).map BaseFeature.rt,
               num_maps_ := maps.length }) := by
  unfold Store.addMaps
  rw [if_neg (by rw [hmode]; intro hc; cases hc)]
  rw [addMapsLoop_ok (by rw [hmode]; intro hc; cases hc)]
  rfl

/-- The rational encoding of the fold-change test implies the intended
real bound: positive intensities whose ratio passes fcWithin have
absolute log2 ratio at most the (nonnegative) bound. -/
theorem fcWithin_imp_logb {c iq ih : ℚ} (hc : 0 ≤ c) (hw : fcWithin c iq ih = true) :
    0 < iq ∧ 0 < ih ∧ |Real.logb 2 ((ih : ℝ) / (iq : ℝ))| ≤ (c : ℝ) := by
  unfold fcWithin at hw
  simp only [Bool.and_eq_true, decide_eq_true_eq] at hw
  obtain ⟨⟨⟨hq, hh⟩, h1⟩, h2⟩ := hw
  refine ⟨hq, hh, ?_⟩
  have hqR : (0 : ℝ) < (iq : ℝ) := by exact_mod_cast hq
  have hhR : (0 : ℝ) < (ih : ℝ) := by exact_mod_cast hh
  have hr : (0 : ℝ) < (ih : ℝ) / (iq : ℝ) := div_pos hhR hqR
  have hd0 : c.den ≠ 0 := c.den_pos.ne'
  have hnum : (c.num.toNat : ℤ) = c.num := Int.toNat_of_nonneg (Rat.num_nonneg.mpr hc)
  have hcd : (c : ℝ) * (c.den : ℝ) = (c.num.toNat : ℝ) := by
    have hq2 : c * (c.den : ℚ) = (c.num : ℚ) := Rat.mul_den_eq_num c
    have h3 : ((c * (c.den : ℚ) : ℚ) : ℝ) = ((c.num : ℚ) : ℝ) := by exact_mod_cast hq2
    push_cast at h3
    rw [h3]
    exact_mod_cast hnum.symm
  have hb2 : (1 : ℝ) < 2 := one_lt_two
  rw [abs_le]
  constructor
  · rw [Real.le_logb_iff_rpow_le hb2 hr]
    have hpow : ((2 : ℝ) ^ (-(c : ℝ))) ^ (c.den : ℕ) ≤ ((ih : ℝ) / (iq : ℝ)) ^ (c.den : ℕ) := by
      have hlhs : ((2 : ℝ) ^ (-(c : ℝ))) ^ (c.den : ℕ) = ((2 : ℝ) ^ (c.num.toNat : ℕ))⁻¹ := by
        rw [← Real.rpow_natCast ((2 : ℝ) ^ (-(c : ℝ))) c.den, ← Real.rpow_mul (by norm_num),
          neg_mul, hcd, Real.rpow_neg (by norm_num), Real.rpow_natCast]
      rw [hlhs, inv_eq_one_div, div_le_iff₀ (by positivity)]
      have h2R : (1 : ℝ) ≤ ((ih : ℝ) / (iq : ℝ)) ^ (c.den : ℕ) * (2 : ℝ) ^ (c.num.toNat : ℕ) := by
        have := (Rat.cast_le (K := ℝ)).mpr h2
        push_cast at this
        exact this
      linarith
    have := (pow_le_pow_iff_left₀ (Real.rpow_nonneg (by norm_num) _) hr.le hd0).mp hpow
    exact this
  · rw [Real.logb_le_iff_le_rpow hb2 hr]
    have hpow : ((ih : ℝ) / (iq : ℝ)) ^ (c.den : ℕ) ≤ ((2 : ℝ) ^ ((c : ℝ))) ^ (c.den : ℕ) := by
      have hrhs : ((2 : ℝ) ^ ((c : ℝ))) ^ (c.den : ℕ) = (2 : ℝ) ^ (c.num.toNat : ℕ) := by
        rw [← Real.rpow_natCast ((2 : ℝ) ^ ((c : ℝ))) c.den, ← Real.rpow_mul (by norm_num),
          hcd, Real.rpow_natCast]
      rw [hrhs]
      have := (Rat.cast_le (K := ℝ)).mpr h1
      push_cast at this
      exact this
    exact (pow_le_pow_iff_left₀ hr.le (Real.rpow_nonneg (by norm_num) _) hd0).mp hpow

theorem transformedRt_length (s : Store) (trafos : List (ℚ → ℚ)) :
    (transformedRt s trafos).length = s.rt_.length := by
  simp [transformedRt]

theorem transformedRt_getD {s : Store} (trafos : List (ℚ → ℚ)) {i : Nat}
    (hi : i < s.rt_.length) :
    (transformedRt s trafos).getD i 0 =
      (trafos.getD (s.map_index_.getD i 0) id) (s.rt_.getD i 0) := by
  unfold transformedRt
  rw [List.getD_eq_getElem _ _ (by simpa using hi)]
  simp

theorem tagsFrom_length (i : Nat) (maps : List (List BaseFeature)) :
    (tagsFrom i maps).length = maps.flatten.length := by
  induction maps generalizing i with
  | nil => rfl
  | cons m rest ih => simp [tagsFrom, ih]

/-
Concrete stores used to witness the claim theorems.
-/

/-- A single plain feature. -/
def f510 : BaseFeature := ⟨5, 10, 1, 1⟩

/-- Tables of a store with integer coordinates: three features, at
(rt, mz) = (0, 10), (1, 20), (2, 30), intensities 4, 8, 8, map indices
0, 1, 1, two maps, default data type. -/
def intBase : Store :=
  Store.mk
    [BaseFeature.mk 0 10 4 1, BaseFeature.mk 1 20 8 1, BaseFeature.mk 2 30 8 2]
    []
    [0, 1, 1]
    [0, 1, 2]
    2
    KDT.leaf
    FeatureDataType.FEATURE_DATA_DEFAULT

/-- The integer-coordinate store with its index built. -/
def intStore : Store := intBase.optimizeTree

/-- Tables for the ppm scenario: a query feature at m/z 1000 (map 0,
intensity 4) and candidates at m/z 1000.009 and 1000.011 (map 1,
intensity 8), all at rt 0. -/
def ppmBase : Store :=
  Store.mk
    [BaseFeature.mk 0 1000 4 1,
     BaseFeature.mk 0 (1000 + 9 / 1000) 8 1,
     BaseFeature.mk 0 (1000 + 11 / 1000) 8 1]
    []
    [0, 1, 1]
    [0, 0, 0]
    2
    KDT.leaf
    FeatureDataType.FEATURE_DATA_DEFAULT

/-- The ppm-scenario store with its index built. -/
def ppmStore : Store := ppmBase.optimizeTree

/-- A store loaded with a single one-feature map. -/
def svOne : Store := okOr (emptyStore.addMaps [[f510]]) emptyStore

/-- A per-map transform list for svOne: shift rt by 1. -/
def trafoShift : List (ℚ → ℚ) := [fun x => x + 1]

/-- A store produced by a two-map bulk load followed by a one-map bulk
load on the same store. -/
def storeTwoThenOne : Store :=
  okOr ((okOr (emptyStore.addMaps [[f510], [f510]]) emptyStore).addMaps [[f510]]) emptyStore

/-
The claims.
-/

/-- Claim C1: for a store whose index was rebuilt after the last
mutation, queryRegion with the default excluded index (Size::max, which
matches no stored map index) returns exactly the handles i < size()
with rt_low ≤ rt(i) ≤ rt_high and mz_low ≤ mz(i) ≤ mz_high; with an
excluded map index supplied it returns the same set minus all handles
of that map. -/
theorem C1_queryRegion_roundtrip (s : Store) (hs : s.synced)
    (rt_low rt_high mz_low mz_high : ℚ) (ex : Nat)
    (hnm : ∀ i < s.size, s.mapIndex i ≠ sizeMax) :
    (∀ i, i ∈ s.queryRegion rt_low rt_high mz_low mz_high sizeMax ↔
      i < s.size ∧ rt_low ≤ s.rt i ∧ s.rt i ≤ rt_high ∧ mz_low ≤ s.mz i ∧ s.mz i ≤ mz_high) ∧
    (∀ i, i ∈ s.queryRegion rt_low rt_high mz_low mz_high ex ↔
      (i < s.size ∧ rt_low ≤ s.rt i ∧ s.rt i ≤ rt_high ∧ mz_low ≤ s.mz i ∧ s.mz i ≤ mz_high) ∧
        s.mapIndex i ≠ ex) := by
  constructor
  · intro i
    rw [mem_queryRegion hs]
    constructor
    · rintro ⟨hi, hb, _⟩
      exact ⟨hi, hb.1, hb.2.1, hb.2.2.1, hb.2.2.2⟩
    · rintro ⟨hi, h1, h2, h3, h4⟩
      exact ⟨hi, ⟨h1, h2, h3, h4⟩, hnm i hi⟩
  · intro i
    rw [mem_queryRegion hs]
    tauto

theorem C1_witness :
    0 ∈ intStore.queryRegion 0 20 0 2000 sizeMax ↔
      0 < intStore.size ∧ 0 ≤ intStore.rt 0 ∧ intStore.rt 0 ≤ 20 ∧
        0 ≤ intStore.mz 0 ∧ intStore.mz 0 ≤ 2000 :=
  (C1_queryRegion_roundtrip intStore (optimizeTree_synced intBase) 0 20 0 2000 7 (by decide)).1 0

/-- Claim C2: getNeighborhood never returns the query handle itself,
and with include_features_from_same_map = false it returns no handle
from the query feature's own map. -/
theorem C2_neighborhood_excludes (s : Store) (q : Nat) (rt_tol mz_tol : ℚ)
    (mz_ppm include_same : Bool) (max_fc : ℚ) (h : Nat)
    (hmem : h ∈ s.getNeighborhood q rt_tol mz_tol mz_ppm include_same max_fc) :
    h ≠ q ∧ (include_same = false → s.mapIndex h ≠ s.mapIndex q) := by
  have hf := mem_getNeighborhood_filters hmem
  exact ⟨hf.1, hf.2.1⟩

theorem C2_witness :
    (1 : Nat) ≠ 0 ∧ (false = false → intStore.mapIndex 1 ≠ intStore.mapIndex 0) :=
  C2_neighborhood_excludes intStore 0 5 15 false false (-1) 1
    ((mem_getNeighborhood (optimizeTree_synced intBase) 0 5 15 false false (-1) 1).mpr
      (by norm_num [intStore, intBase, Store.optimizeTree, Store.rt, Store.mz, Store.mapIndex,
        Store.size, Store.intensity, Store.points, mzHalfWidth, fcPass, List.getD_cons_zero,
        List.getD_cons_succ, Bool.or_eq_true, decide_eq_true_eq]))

/-- Claim C3: getNeighborhood searches the m/z window of half-width
mz0 * mz_tol * 1e-6 around mz0 when mz_ppm is true, of half-width
mz_tol otherwise, and the rt window of half-width rt_tol; a returned
handle is exactly an in-window stored handle passing the self, map and
fold-change filters.  (The concrete ppm instance of the claim —
mz0 = 1000, mz_tol = 10 ppm, 1000.011 excluded, 1000.009 included — is
exercised by the witness.) -/
theorem C3_ppm_window (s : Store) (hs : s.synced) (q : Nat) (hq : q < s.size)
    (rt_tol mz_tol : ℚ) (mz_ppm inc : Bool) (c : ℚ) (h : Nat) :
    h ∈ s.getNeighborhood q rt_tol mz_tol mz_ppm inc c ↔
      h < s.size ∧ h ≠ q ∧
        s.rt q - rt_tol ≤ s.rt h ∧ s.rt h ≤ s.rt q + rt_tol ∧
        s.mz q - (if mz_ppm then s.mz q * mz_tol * (1 / 1000000) else mz_tol) ≤ s.mz h ∧
        s.mz h ≤ s.mz q + (if mz_ppm then s.mz q * mz_tol * (1 / 1000000) else mz_tol) ∧
        (inc = true ∨ s.mapIndex h ≠ s.mapIndex q) ∧
        fcPass c (s.intensity q) (s.intensity h) = true :=
  mem_getNeighborhood hs q rt_tol mz_tol mz_ppm inc c h

theorem C3_witness :
    1 ∈ ppmStore.getNeighborhood 0 1 10 true false (-1) ∧
      ¬ 2 ∈ ppmStore.getNeighborhood 0 1 10 true false (-1) := by
  constructor
  · exact (C3_ppm_window ppmStore (optimizeTree_synced ppmBase) 0 (by decide) 1 10 true false
      (-1) 1).mpr
      (by norm_num [ppmStore, ppmBase, Store.optimizeTree, Store.rt, Store.mz, Store.mapIndex,
        Store.size, Store.intensity, fcPass, List.getD_cons_zero, List.getD_cons_succ,
        Bool.or_eq_true, decide_eq_true_eq])
  · intro hmem
    have h2 := (C3_ppm_window ppmStore (optimizeTree_synced ppmBase) 0 (by decide) 1 10 true false
      (-1) 2).mp hmem
    obtain ⟨_, _, _, _, _, hub, _, _⟩ := h2
    norm_num [ppmStore, ppmBase, Store.optimizeTree, Store.mz, List.getD_cons_zero,
      List.getD_cons_succ] at hub

/-- Claim C8: malformed region bounds (low > high on either axis) make
queryRegion return an empty result; the operation is total, never an
error. -/
theorem C8_malformed_bounds (s : Store) (rt_low rt_high mz_low mz_high : ℚ) (ex : Nat)
    (h : rt_low > rt_high ∨ mz_low > mz_high) :
    s.queryRegion rt_low rt_high mz_low mz_high ex = [] := by
  unfold Store.queryRegion
  rw [rangeQuery_empty_of_malformed (Rect.mk rt_low rt_high mz_low mz_high) h s.kd_tree_]
  rfl

theorem C8_witness : intStore.queryRegion 5 4 0 0 3 = [] :=
  C8_malformed_bounds intStore 5 4 0 0 3 (Or.inl (by norm_num))

/-- Claim C4: immediately after optimizeTree() (hence after every bulk
load, which ends in optimizeTree()), treeSize() equals size(), and a
region query whose window covers every stored position (with the
default, no-map excluded index) reports every handle in [0, size())
exactly once. -/
theorem C4_optimizeTree_complete (s : Store) (rt_low rt_high mz_low mz_high : ℚ)
    (hcover : ∀ i < s.size, rt_low ≤ s.rt i ∧ s.rt i ≤ rt_high ∧ mz_low ≤ s.mz i ∧ s.mz i ≤ mz_high)
    (hnm : ∀ i < s.size, s.mapIndex i ≠ sizeMax) :
    s.optimizeTree.treeSize = s.optimizeTree.size ∧
      ∀ i < s.size,
        (s.optimizeTree.queryRegion rt_low rt_high mz_low mz_high sizeMax).count i = 1 := by
  constructor
  · rw [optimizeTree_treeSize]
    rfl
  · intro i hi
    have hperm := queryRegion_perm_range (optimizeTree_synced s) rt_low rt_high mz_low mz_high
      sizeMax hcover hnm
    rw [hperm.count_eq i]
    exact List.count_eq_one_of_mem (List.nodup_range _) (List.mem_range.mpr hi)

theorem C4_witness : (intBase.optimizeTree.queryRegion 0 30 0 2000 sizeMax).count 0 = 1 :=
  (C4_optimizeTree_complete intBase 0 30 0 2000 (by decide) (by decide)).2 0 (by decide)

/-- Claim C5 counterexample: the store obtained by bulk-loading two
maps and then bulk-loading a single map still holds handle 1 with map
index 1, while numMaps() has been overwritten to 1 — so the claimed
invariant mapIndex(i) < numMaps() fails after more than one bulk-load
call. -/
theorem C5_counterexample :
    1 < storeTwoThenOne.size ∧ storeTwoThenOne.mapIndex 1 = 1 ∧
      storeTwoThenOne.numMaps = 1 ∧
      ¬ (storeTwoThenOne.mapIndex 1 < storeTwoThenOne.numMaps) := by
  decide

/-- Claim C5 amended: for a store populated by a single bulk-load call
on a freshly constructed store, every stored handle has
mapIndex(i) < numMaps(); the invariant can fail after a further
bulk-load call that supplies fewer maps, since numMaps() is overwritten
while old map indices are kept. -/
theorem C5_amended_single_load (maps : List (List BaseFeature)) (t : Store)
    (hok : emptyStore.addMaps maps = Except.ok t) :
    ∀ i < t.size, t.mapIndex i < t.numMaps := by
  rw [addMaps_ok rfl] at hok
  injection hok with hok2
  subst hok2
  intro i hi
  have hi2 : i < maps.flatten.length := by
    simpa [Store.size, Store.optimizeTree, emptyStore] using hi
  have hilen : i < (tagsFrom 0 maps).length := by
    rw [tagsFrom_length]
    exact hi2
  show List.getD ([] ++ tagsFrom 0 maps) i 0 < maps.length
  rw [List.nil_append]
  rw [List.getD_eq_getElem _ _ hilen]
  have hmem := List.getElem_mem hilen
  have hb := tagsFrom_mem_bounds hmem
  omega

/-- The single-load store used to witness the amended claim C5. -/
def singleLoad : Store := okOr (emptyStore.addMaps [[f510], [f510]]) emptyStore

theorem C5_witness : singleLoad.mapIndex 0 < singleLoad.numMaps :=
  C5_amended_single_load [[f510], [f510]] singleLoad rfl 0 (by decide)

/-- Claim C6: an add whose variant does not match the store's ownership
mode fails with a usage error in both directions — addMaps (which adds
through the const variant) on a non-const-mode store, the const add on
a non-const-mode store, and the non-const add on a default-mode store
— and the error is returned without any feature of the call being
stored (the failing operation yields no updated store). -/
theorem C6_ownership_mode_mismatch (s : Store) (maps : List (List BaseFeature)) (i : Nat)
    (f : BaseFeature) :
    (s.feature_data_type_ = FeatureDataType.FEATURE_DATA_NON_CONST →
      s.addMaps maps = Except.error Err.usageError ∧
        s.addFeatureConst i f = Except.error Err.usageError) ∧
    (s.feature_data_type_ = FeatureDataType.FEATURE_DATA_DEFAULT →
      s.addFeatureNonConst i f = Except.error Err.usageError) := by
  refine ⟨fun hm => ⟨?_, ?_⟩, fun hm => ?_⟩
  · unfold Store.addMaps
    rw [if_pos hm]
  · unfold Store.addFeatureConst
    rw [if_pos hm]
  · unfold Store.addFeatureNonConst
    rw [if_pos hm]

theorem C6_witness :
    emptyStoreNonConst.addMaps [[f510]] = Except.error Err.usageError ∧
      emptyStore.addFeatureNonConst 0 f510 = Except.error Err.usageError :=
  ⟨((C6_ownership_mode_mismatch emptyStoreNonConst [[f510]] 0 f510).1 rfl).1,
   (C6_ownership_mode_mismatch emptyStore [[f510]] 0 f510).2 rfl⟩

/-- Claim C7: when the transform list length equals numMaps(),
applyTransformations replaces every stored retention time by the
per-map transform of the old value and leaves m/z, intensity, charge,
map index and size unchanged; a mismatched length is a usage error and
(the error carrying no updated store) mutates nothing. -/
theorem C7_applyTransformations_contract (s : Store) (trafos : List (ℚ → ℚ))
    (hlen : s.rt_.length = s.features_.length) :
    (trafos.length = s.numMaps →
      ∃ t, s.applyTransformations trafos = Except.ok t ∧
        t.size = s.size ∧
        (∀ i < s.size, t.rt i = (trafos.getD (s.mapIndex i) id) (s.rt i)) ∧
        (∀ i, t.mz i = s.mz i ∧ t.intensity i = s.intensity i ∧ t.charge i = s.charge i ∧
          t.mapIndex i = s.mapIndex i) ∧
        t.numMaps = s.numMaps) ∧
    (trafos.length ≠ s.numMaps → s.applyTransformations trafos = Except.error Err.usageError) := by
  constructor
  · intro hl
    refine ⟨{ s with rt_ := transformedRt s trafos }, ?_, rfl, ?_, ?_, rfl⟩
    · unfold Store.applyTransformations
      simp only [Store.numMaps] at hl
      rw [if_neg (not_not.mpr hl)]
    · intro i hi
      show (transformedRt s trafos).getD i 0 = _
      rw [transformedRt_getD trafos (by rw [hlen]; exact hi)]
      rfl
    · intro i
      exact ⟨rfl, rfl, rfl, rfl⟩
  · intro hl
    unfold Store.applyTransformations
    simp only [Store.numMaps] at hl
    rw [if_pos hl]

theorem C7_witness :
    (okOr (svOne.applyTransformations trafoShift) emptyStore).rt 0 =
      (trafoShift.getD (svOne.mapIndex 0) id) (svOne.rt 0) := by
  obtain ⟨t, hok, hsz, hrt, hrest, hnm⟩ :=
    (C7_applyTransformations_contract svOne trafoShift (by decide)).1 (by decide)
  rw [hok]
  exact hrt 0 (by decide)

/-- Claim C9: a returned neighborhood candidate always respects the
fold-change bound when that bound is nonnegative — the query and
candidate intensities are then strictly positive (a zero intensity is a
degenerate comparison and is excluded, no division by zero arises) and
the absolute log2 intensity ratio is at most the bound; a negative
bound disables the intensity filter entirely. -/
theorem C9_fold_change_filter (s : Store) (q : Nat) (rt_tol mz_tol : ℚ) (mz_ppm inc : Bool)
    (c : ℚ) :
    (∀ h ∈ s.getNeighborhood q rt_tol mz_tol mz_ppm inc c, 0 ≤ c →
      0 < s.intensity q ∧ 0 < s.intensity h ∧
        |Real.logb 2 ((s.intensity h : ℝ) / (s.intensity q : ℝ))| ≤ (c : ℝ)) ∧
    (c < 0 → s.getNeighborhood q rt_tol mz_tol mz_ppm inc c =
      s.neighborhoodNoFC q rt_tol mz_tol mz_ppm inc) := by
  constructor
  · intro h hmem hc
    have hf := (mem_getNeighborhood_filters hmem).2.2
    unfold fcPass at hf
    rw [Bool.or_eq_true] at hf
    rcases hf with hneg | hw
    · simp only [decide_eq_true_eq] at hneg
      linarith
    · exact fcWithin_imp_logb hc hw
  · intro hc
    exact getNeighborhood_neg_fc q rt_tol mz_tol mz_ppm inc hc

theorem C9_witness :
    0 < intStore.intensity 0 ∧ 0 < intStore.intensity 1 ∧
      |Real.logb 2 ((intStore.intensity 1 : ℝ) / (intStore.intensity 0 : ℝ))| ≤ ((1 : ℚ) : ℝ) :=
  (C9_fold_change_filter intStore 0 5 15 false false 1).1 1
    ((mem_getNeighborhood (optimizeTree_synced intBase) 0 5 15 false false 1 1).mpr
      (by norm_num [intStore, intBase, Store.optimizeTree, Store.rt, Store.mz, Store.mapIndex,
        Store.size, Store.intensity, mzHalfWidth, fcPass, fcWithin, List.getD_cons_zero,
        List.getD_cons_succ, Bool.or_eq_true, Bool.and_eq_true, decide_eq_true_eq]))
    (by norm_num)

/-- Claim C10 (implicit, from the header code): every addMaps call
overwrites num_maps_ with the size of its own map list — the count is
not accumulated across calls — and the features of the call are
appended with map indices 0 .. maps.size()-1 (map k of the call
contributing index k), regardless of the map indices already stored. -/
theorem C10_addMaps_overwrites (s : Store)
    (hmode : s.feature_data_type_ = FeatureDataType.FEATURE_DATA_DEFAULT)
    (maps : List (List BaseFeature)) :
    ∃ t, s.addMaps maps = Except.ok t ∧
      t.numMaps = maps.length ∧
      t.map_index_ = s.map_index_ ++ tagsFrom 0 maps ∧
      t.features_ = s.features_ ++ maps.flatten ∧
      ∀ x ∈ tagsFrom 0 maps, x < maps.length := by
  refine ⟨_, addMaps_ok hmode maps, rfl, rfl, rfl, ?_⟩
  intro x hx
  have hb := tagsFrom_mem_bounds hx
  omega

theorem C10_witness :
    ∃ t, emptyStore.addMaps [[f510], [f510]] = Except.ok t ∧
      t.numMaps = 2 ∧
      t.map_index_ = [] ++ tagsFrom 0 [[f510], [f510]] ∧
      t.features_ = [] ++ [[f510], [f510]].flatten ∧
      ∀ x ∈ tagsFrom 0 [[f510], [f510]], x < 2 :=
  C10_addMaps_overwrites emptyStore rfl [[f510], [f510]]

end KDTreeFeatureMapsSpec
